import Mathlib

/-!
Verification development for the SDRranger barcode-processing pipeline
(src/SDRranger/gDNAcount.py and src/SDRranger/count.py).

Sequences are modelled as `List Char`, scores as `ℚ` (the Python code uses
floats; all scores here are exact small rationals), fallible operations as
`Option`/`Except`, and the stateful streaming pipelines as pure functions on
lists of records.
-/

namespace SDR

abbrev Str := List Char

/-! ### Python comparison semantics

`max(scores_and_pieces)` in `process_bc_rec_and_p_read` (gDNAcount.py line 125)
compares `(float, list[str])` tuples with Python's lexicographic tuple order:
first the score, then the piece lists elementwise, strings by character with a
proper prefix comparing less.  `max` keeps the first element and replaces the
running best only on strictly-greater. -/

def pyLtStr : Str → Str → Bool
  | [], [] => false
  | [], _ :: _ => true
  | _ :: _, [] => false
  | a :: as, b :: bs => if a < b then true else if b < a then false else pyLtStr as bs

def pyLtPieces : List Str → List Str → Bool
  | [], [] => false
  | [], _ :: _ => true
  | _ :: _, [] => false
  | a :: as, b :: bs =>
      if pyLtStr a b then true else if pyLtStr b a then false else pyLtPieces as bs

def pyLtPair (a b : ℚ × List Str) : Bool :=
  decide (a.1 < b.1) || (a.1 == b.1 && pyLtPieces a.2 b.2)

/-- Python `max` over a list of `(score, pieces)` tuples: fold keeping the
current best, replacing it only when the new element is strictly greater. -/
def pyMax : List (ℚ × List Str) → ℚ × List Str
  | [] => (0, [])
  | x :: xs => xs.foldl (fun best y => if pyLtPair best y then y else best) x

/-! ### Layout aligner

Modelled from the spec: `CustomBCAligner` lives in bc_aligner.py, which is not
part of src/.  Spec §4.1: a layout is an ordered list of segments, each a
fixed-length wildcard (written as a run of `N`s in the source calls) or a
literal; alignment is left-to-right greedy placement, wildcards consume their
fixed length, literals are matched at the current offset and scored by the
count of matching bases; the normalized score divides the total matching-base
count by the total number of literal-segment bases; a sequence shorter than
the layout is clamped, never faulted. -/

structure CustomBCAligner where
  segs : List Str
  deriving DecidableEq

def isWildcardSeg (s : Str) : Bool := s.all (fun c => c == 'N')

def matchCount : Str → Str → Nat
  | [], _ => 0
  | _, [] => 0
  | a :: as, b :: bs => (if a = b then 1 else 0) + matchCount as bs

def cutPieces : List Str → Str → List Str
  | [], _ => []
  | p :: ps, s => s.take p.length :: cutPieces ps (s.drop p.length)

def litMatches : List Str → Str → Nat
  | [], _ => 0
  | p :: ps, s =>
      (if isWildcardSeg p then 0 else matchCount p (s.take p.length)) +
        litMatches ps (s.drop p.length)

def litTotal (segs : List Str) : Nat :=
  (segs.filter (fun p => !isWildcardSeg p)).foldl (fun acc p => acc + p.length) 0

def find_norm_score_and_pieces (al : CustomBCAligner) (seq : Str) : ℚ × List Str :=
  ((litMatches al.segs seq : ℚ) / (litTotal al.segs : ℚ), cutPieces al.segs seq)

/-! ### Constants (count.py lines 13–15, mirrored by the missing constants.py) -/

def commonseq1_base : Str := "GTCAGTACGTACGAGTC".data

def commonseq1_options : List Str := (List.range 4).map (fun i => commonseq1_base.drop i)

def commonseq2_gDNA : Str := "GTACTCGCAGTAGTC".data

def wildN (n : Nat) : Str := List.replicate n 'N'

/-- Modelled from the spec: `build_gDNA_bc_aligners` is called by gDNAcount.py
(lines 168, 240, 262) but defined in a module missing from src/.  The layout is
the gDNA analogue of the RNA layout built in src (count.py line 32): a 9-base
cell-barcode wildcard, a frame-shifted common-sequence-1 variant, a second
9-base cell-barcode wildcard, common-sequence-2, an 8-base sample-barcode
wildcard and an 8-base UMI wildcard; one aligner per common-sequence-1 variant,
in declared order. -/
def build_gDNA_bc_aligners : List CustomBCAligner :=
  commonseq1_options.map (fun cso =>
    ⟨[wildN 9, cso, wildN 9, commonseq2_gDNA, wildN 8, wildN 8]⟩)

/-! ### Ordering lemmas for Python comparisons -/

lemma pyLtStr_self (l : Str) : pyLtStr l l = false := by
  induction l with
  | nil => rfl
  | cons a as ih => simp [pyLtStr, lt_irrefl, ih]

lemma pyLtStr_nil_right (l : Str) : pyLtStr l [] = false := by
  cases l <;> rfl

lemma pyLtPieces_self (l : List Str) : pyLtPieces l l = false := by
  induction l with
  | nil => rfl
  | cons a as ih => simp [pyLtPieces, pyLtStr_self, ih]

lemma pyLtStr_take_le (s : Str) : ∀ {n m : Nat}, n ≤ m →
    pyLtStr (s.take m) (s.take n) = false := by
  induction s with
  | nil => intro n m _; simp [pyLtStr]
  | cons c cs ih =>
    intro n m h
    cases n with
    | zero => simpa using pyLtStr_nil_right ((c :: cs).take m)
    | succ k =>
      cases m with
      | zero => omega
      | succ l =>
        simp only [List.take_succ_cons, pyLtStr, lt_irrefl, if_false]
        exact ih (Nat.succ_le_succ_iff.mp h)

lemma pyLtStr_take_lt (s : Str) : ∀ {n m : Nat}, n ≤ m →
    s.take n ≠ s.take m → pyLtStr (s.take n) (s.take m) = true := by
  induction s with
  | nil => intro n m _ hne; simp at hne
  | cons c cs ih =>
    intro n m h hne
    cases n with
    | zero =>
      cases m with
      | zero => simp at hne
      | succ l => simp [pyLtStr]
    | succ k =>
      cases m with
      | zero => omega
      | succ l =>
        simp only [List.take_succ_cons, ne_eq, List.cons.injEq, true_and] at hne
        simp only [List.take_succ_cons, pyLtStr, lt_irrefl, if_false]
        exact ih (Nat.succ_le_succ_iff.mp h) hne

lemma drop_eq_drop_of_take_eq (s : Str) {n m : Nat} (h : n ≤ m)
    (he : s.take n = s.take m) : s.drop n = s.drop m := by
  rcases Nat.eq_or_lt_of_le h with rfl | hlt
  · rfl
  · have hlen := congrArg List.length he
    simp only [List.length_take] at hlen
    have hs : s.length ≤ n := by omega
    rw [List.drop_eq_nil_of_le hs, List.drop_eq_nil_of_le (le_trans hs h)]

lemma pyLtPieces_cut_le {a b : Str} (h : b.length ≤ a.length) (R : List Str) (s : Str) :
    pyLtPieces (cutPieces (a :: R) s) (cutPieces (b :: R) s) = false := by
  simp only [cutPieces]
  by_cases heq : s.take b.length = s.take a.length
  · have hd := drop_eq_drop_of_take_eq s h heq
    simp [pyLtPieces, heq.symm, pyLtStr_self, ← hd, pyLtPieces_self]
  · have h1 : pyLtStr (s.take a.length) (s.take b.length) = false := pyLtStr_take_le s h
    have h2 : pyLtStr (s.take b.length) (s.take a.length) = true :=
      pyLtStr_take_lt s h heq
    simp [pyLtPieces, h1, h2]

lemma pyLtPieces_cons_same (t : Str) (l1 l2 : List Str) :
    pyLtPieces (t :: l1) (t :: l2) = pyLtPieces l1 l2 := by
  simp [pyLtPieces, pyLtStr_self]

lemma pyLtPieces_cut_cons_le {x a b : Str} (h : b.length ≤ a.length)
    (R : List Str) (s : Str) :
    pyLtPieces (cutPieces (x :: a :: R) s) (cutPieces (x :: b :: R) s) = false := by
  have e1 : cutPieces (x :: a :: R) s
      = s.take x.length :: cutPieces (a :: R) (s.drop x.length) := rfl
  have e2 : cutPieces (x :: b :: R) s
      = s.take x.length :: cutPieces (b :: R) (s.drop x.length) := rfl
  rw [e1, e2, pyLtPieces_cons_same]
  exact pyLtPieces_cut_le h R (s.drop x.length)

lemma pyLtPair_of_pieces_false {a b : ℚ × List Str}
    (h : pyLtPieces a.2 b.2 = false) : pyLtPair a b = decide (a.1 < b.1) := by
  simp [pyLtPair, h]

/-- Python's `max` over a list whose elements, pairwise in list order, compare
by score alone (later elements never having strictly greater pieces on a score
tie) returns the first element achieving the maximum score. -/
lemma pyMax_foldl_first :
    ∀ (xs : List (ℚ × List Str)) (x : ℚ × List Str),
      (x :: xs).Pairwise (fun a b => pyLtPair a b = decide (a.1 < b.1)) →
      ∃ pre y post, x :: xs = pre ++ y :: post ∧
        (∀ z ∈ pre, z.1 < y.1) ∧ (∀ z ∈ x :: xs, z.1 ≤ y.1) ∧
        xs.foldl (fun best c => if pyLtPair best c then c else best) x = y := by
  intro xs
  induction xs with
  | nil =>
    intro x _
    exact ⟨[], x, [], rfl, by simp, by simp, rfl⟩
  | cons y0 ys ih =>
    intro x hp
    rw [List.pairwise_cons] at hp
    obtain ⟨hx, hp'⟩ := hp
    have hxy0 : pyLtPair x y0 = decide (x.1 < y0.1) := hx y0 (by simp)
    simp only [List.foldl_cons]
    by_cases hlt : x.1 < y0.1
    · have hstep : (if pyLtPair x y0 then y0 else x) = y0 := by
        simp [hxy0, hlt]
      obtain ⟨pre, y, post, hdec, hpre, hall, hfold⟩ := ih y0 hp'
      have hy0y : y0.1 ≤ y.1 := hall y0 (by simp)
      refine ⟨x :: pre, y, post, by rw [List.cons_append, ← hdec], ?_, ?_, ?_⟩
      · intro z hz
        rcases List.mem_cons.mp hz with rfl | hz
        · exact lt_of_lt_of_le hlt hy0y
        · exact hpre z hz
      · intro z hz
        rcases List.mem_cons.mp hz with rfl | hz
        · exact le_of_lt (lt_of_lt_of_le hlt hy0y)
        · exact hall z hz
      · rw [hstep]; exact hfold
    · have hstep : (if pyLtPair x y0 then y0 else x) = x := by
        simp [hxy0, hlt]
      have hpx : (x :: ys).Pairwise (fun a b => pyLtPair a b = decide (a.1 < b.1)) := by
        rw [List.pairwise_cons]
        exact ⟨fun b hb => hx b (by simp [hb]), (List.pairwise_cons.mp hp').2⟩
      obtain ⟨pre, y, post, hdec, hpre, hall, hfold⟩ := ih x hpx
      have hy0x : y0.1 ≤ x.1 := le_of_not_lt hlt
      cases pre with
      | nil =>
        simp only [List.nil_append, List.cons.injEq] at hdec
        obtain ⟨rfl, rfl⟩ := hdec
        refine ⟨[], x, y0 :: ys, rfl, by simp, ?_, ?_⟩
        · intro z hz
          rcases List.mem_cons.mp hz with rfl | hz
          · exact le_refl _
          · rcases List.mem_cons.mp hz with rfl | hz
            · exact hy0x
            · exact hall z (by simp [hz])
        · rw [hstep]; exact hfold
      | cons p pre' =>
        simp only [List.cons_append, List.cons.injEq] at hdec
        obtain ⟨rfl, hys⟩ := hdec
        have hxy : x.1 < y.1 := hpre x (by simp)
        refine ⟨x :: y0 :: pre', y, post, by simp [hys], ?_, ?_, ?_⟩
        · intro z hz
          rcases List.mem_cons.mp hz with rfl | hz
          · exact hxy
          · rcases List.mem_cons.mp hz with rfl | hz
            · exact lt_of_le_of_lt hy0x hxy
            · exact hpre z (by simp [hz])
        · intro z hz
          rcases List.mem_cons.mp hz with rfl | hz
          · exact hall z (by simp)
          · rcases List.mem_cons.mp hz with rfl | hz
            · exact le_trans hy0x (le_of_lt hxy)
            · exact hall z (by simp [hz])
        · rw [hstep]; exact hfold

/-! ### Segmentation selection (gDNAcount.py lines 124–132) -/

/-- Line 124: `scores_and_pieces = [al.find_norm_score_and_pieces(bc_seq) for al in aligners]`. -/
def gDNA_scores_and_pieces (seq : Str) : List (ℚ × List Str) :=
  build_gDNA_bc_aligners.map (fun al => find_norm_score_and_pieces al seq)

/-- Line 125: `raw_score, raw_pieces = max(scores_and_pieces)`. -/
def gDNA_raw_selection (seq : Str) : ℚ × List Str := pyMax (gDNA_scores_and_pieces seq)

/-- Line 131: `best_aligner = next(al for al, (s, p) in zip(aligners, scores_and_pieces) if s == raw_score)`. -/
def gDNA_best_aligner (seq : Str) : Option CustomBCAligner :=
  build_gDNA_bc_aligners.find?
    (fun al => (find_norm_score_and_pieces al seq).1 == (gDNA_raw_selection seq).1)

def gA (i : Nat) : CustomBCAligner :=
  ⟨[wildN 9, commonseq1_base.drop i, wildN 9, commonseq2_gDNA, wildN 8, wildN 8]⟩

lemma build_gDNA_eq : build_gDNA_bc_aligners = [gA 0, gA 1, gA 2, gA 3] := rfl

lemma gA_pair_lt (i j : Nat)
    (h : (commonseq1_base.drop j).length ≤ (commonseq1_base.drop i).length) (seq : Str) :
    pyLtPair (find_norm_score_and_pieces (gA i) seq) (find_norm_score_and_pieces (gA j) seq)
      = decide ((find_norm_score_and_pieces (gA i) seq).1
          < (find_norm_score_and_pieces (gA j) seq).1) := by
  apply pyLtPair_of_pieces_false
  exact @pyLtPieces_cut_cons_le (wildN 9) (commonseq1_base.drop i) (commonseq1_base.drop j) h
    [wildN 9, commonseq2_gDNA, wildN 8, wildN 8] seq

lemma gDNA_results_eq (seq : Str) :
    gDNA_scores_and_pieces seq =
      [find_norm_score_and_pieces (gA 0) seq, find_norm_score_and_pieces (gA 1) seq,
       find_norm_score_and_pieces (gA 2) seq, find_norm_score_and_pieces (gA 3) seq] := by
  simp [gDNA_scores_and_pieces, build_gDNA_eq]

lemma gDNA_results_pairwise (seq : Str) :
    (gDNA_scores_and_pieces seq).Pairwise (fun a b => pyLtPair a b = decide (a.1 < b.1)) := by
  rw [gDNA_results_eq]
  refine List.Pairwise.cons ?_ (List.Pairwise.cons ?_ (List.Pairwise.cons ?_ (List.pairwise_singleton _ _)))
  · intro b hb
    rcases List.mem_cons.mp hb with rfl | hb
    · exact gA_pair_lt 0 1 (by decide) seq
    rcases List.mem_cons.mp hb with rfl | hb
    · exact gA_pair_lt 0 2 (by decide) seq
    rcases List.mem_cons.mp hb with rfl | hb
    · exact gA_pair_lt 0 3 (by decide) seq
    · simp at hb
  · intro b hb
    rcases List.mem_cons.mp hb with rfl | hb
    · exact gA_pair_lt 1 2 (by decide) seq
    rcases List.mem_cons.mp hb with rfl | hb
    · exact gA_pair_lt 1 3 (by decide) seq
    · simp at hb
  · intro b hb
    rcases List.mem_cons.mp hb with rfl | hb
    · exact gA_pair_lt 2 3 (by decide) seq
    · simp at hb

lemma gDNA_raw_selection_foldl (seq : Str) :
    gDNA_raw_selection seq =
      [find_norm_score_and_pieces (gA 1) seq, find_norm_score_and_pieces (gA 2) seq,
       find_norm_score_and_pieces (gA 3) seq].foldl
        (fun best c => if pyLtPair best c then c else best)
        (find_norm_score_and_pieces (gA 0) seq) := by
  rw [gDNA_raw_selection, gDNA_results_eq]
  rfl

/-- C4: for every raw barcode sequence, line 125's `max(scores_and_pieces)` and
line 131's `next(al for ... if s == raw_score)` both select the first layout
variant, in declared order, that achieves the maximum normalized score: the
returned score/pieces equal that variant's result and the best aligner (whose
literal segments become the corrected filler sequences) is that same variant. -/
theorem gDNA_segmentation_first_encountered (seq : Str) :
    ∃ pre al post,
      build_gDNA_bc_aligners = pre ++ al :: post ∧
      (∀ al' ∈ pre,
        (find_norm_score_and_pieces al' seq).1 < (find_norm_score_and_pieces al seq).1) ∧
      (∀ al' ∈ build_gDNA_bc_aligners,
        (find_norm_score_and_pieces al' seq).1 ≤ (find_norm_score_and_pieces al seq).1) ∧
      gDNA_raw_selection seq = find_norm_score_and_pieces al seq ∧
      gDNA_best_aligner seq = some al := by
  obtain ⟨pre, y, post, hdec, hpre, hall, hfold⟩ :=
    pyMax_foldl_first
      [find_norm_score_and_pieces (gA 1) seq, find_norm_score_and_pieces (gA 2) seq,
       find_norm_score_and_pieces (gA 3) seq]
      (find_norm_score_and_pieces (gA 0) seq)
      (by rw [← gDNA_results_eq]; exact gDNA_results_pairwise seq)
  have hsel : gDNA_raw_selection seq = y := (gDNA_raw_selection_foldl seq).trans hfold
  rcases pre with _ | ⟨a1, _ | ⟨a2, _ | ⟨a3, _ | ⟨a4, rest⟩⟩⟩⟩
  · simp only [List.nil_append, List.cons.injEq] at hdec
    obtain ⟨hy, -⟩ := hdec
    have hsel0 : gDNA_raw_selection seq = find_norm_score_and_pieces (gA 0) seq :=
      hsel.trans hy.symm
    refine ⟨[], gA 0, [gA 1, gA 2, gA 3], build_gDNA_eq, by simp, ?_, hsel0, ?_⟩
    · intro al' h'
      rw [build_gDNA_eq] at h'
      have hley : ∀ t ∈ [gA 0, gA 1, gA 2, gA 3],
          (find_norm_score_and_pieces t seq).1 ≤ y.1 := by
        intro t ht
        fin_cases ht <;> [exact hall _ (by simp); exact hall _ (by simp);
          exact hall _ (by simp); exact hall _ (by simp)]
      rw [hy]
      exact hley al' h'
    · rw [gDNA_best_aligner, build_gDNA_eq, hsel0]
      exact List.find?_cons_of_pos _ (by simp)
  · simp only [List.cons_append, List.nil_append, List.cons.injEq] at hdec
    obtain ⟨ha1, hy, -⟩ := hdec
    have h0 : (find_norm_score_and_pieces (gA 0) seq).1
        < (find_norm_score_and_pieces (gA 1) seq).1 := by
      rw [ha1, hy]; exact hpre a1 (by simp)
    have hsel1 : gDNA_raw_selection seq = find_norm_score_and_pieces (gA 1) seq :=
      hsel.trans hy.symm
    refine ⟨[gA 0], gA 1, [gA 2, gA 3], build_gDNA_eq, ?_, ?_, hsel1, ?_⟩
    · intro al' h'
      rcases List.mem_singleton.mp h' with rfl
      exact h0
    · intro al' h'
      rw [build_gDNA_eq] at h'
      rw [hy]
      fin_cases h' <;> [exact hall _ (by simp); exact hall _ (by simp);
        exact hall _ (by simp); exact hall _ (by simp)]
    · rw [gDNA_best_aligner, build_gDNA_eq, hsel1]
      rw [List.find?_cons_of_neg _ (by simp [ne_of_lt h0])]
      exact List.find?_cons_of_pos _ (by simp)
  · simp only [List.cons_append, List.nil_append, List.cons.injEq] at hdec
    obtain ⟨ha1, ha2, hy, -⟩ := hdec
    have h0 : (find_norm_score_and_pieces (gA 0) seq).1 < y.1 := by
      rw [ha1]; exact hpre a1 (by simp)
    have h1 : (find_norm_score_and_pieces (gA 1) seq).1 < y.1 := by
      rw [ha2]; exact hpre a2 (by simp)
    have hsel2 : gDNA_raw_selection seq = find_norm_score_and_pieces (gA 2) seq :=
      hsel.trans hy.symm
    refine ⟨[gA 0, gA 1], gA 2, [gA 3], build_gDNA_eq, ?_, ?_, hsel2, ?_⟩
    · intro al' h'
      rw [hy]
      rcases List.mem_cons.mp h' with rfl | h'
      · exact h0
      · rcases List.mem_singleton.mp h' with rfl
        exact h1
    · intro al' h'
      rw [build_gDNA_eq] at h'
      rw [hy]
      fin_cases h' <;> [exact hall _ (by simp); exact hall _ (by simp);
        exact hall _ (by simp); exact hall _ (by simp)]
    · rw [gDNA_best_aligner, build_gDNA_eq, hsel2]
      rw [List.find?_cons_of_neg _ (by simp [ne_of_lt (hy ▸ h0)])]
      rw [List.find?_cons_of_neg _ (by simp [ne_of_lt (hy ▸ h1)])]
      exact List.find?_cons_of_pos _ (by simp)
  · simp only [List.cons_append, List.nil_append, List.cons.injEq] at hdec
    obtain ⟨ha1, ha2, ha3, hy, -⟩ := hdec
    have h0 : (find_norm_score_and_pieces (gA 0) seq).1 < y.1 := by
      rw [ha1]; exact hpre a1 (by simp)
    have h1 : (find_norm_score_and_pieces (gA 1) seq).1 < y.1 := by
      rw [ha2]; exact hpre a2 (by simp)
    have h2 : (find_norm_score_and_pieces (gA 2) seq).1 < y.1 := by
      rw [ha3]; exact hpre a3 (by simp)
    have hsel3 : gDNA_raw_selection seq = find_norm_score_and_pieces (gA 3) seq :=
      hsel.trans hy.symm
    refine ⟨[gA 0, gA 1, gA 2], gA 3, [], build_gDNA_eq, ?_, ?_, hsel3, ?_⟩
    · intro al' h'
      rw [hy]
      rcases List.mem_cons.mp h' with rfl | h'
      · exact h0
      rcases List.mem_cons.mp h' with rfl | h'
      · exact h1
      · rcases List.mem_singleton.mp h' with rfl
        exact h2
    · intro al' h'
      rw [build_gDNA_eq] at h'
      rw [hy]
      fin_cases h' <;> [exact hall _ (by simp); exact hall _ (by simp);
        exact hall _ (by simp); exact hall _ (by simp)]
    · rw [gDNA_best_aligner, build_gDNA_eq, hsel3]
      rw [List.find?_cons_of_neg _ (by simp [ne_of_lt (hy ▸ h0)])]
      rw [List.find?_cons_of_neg _ (by simp [ne_of_lt (hy ▸ h1)])]
      rw [List.find?_cons_of_neg _ (by simp [ne_of_lt (hy ▸ h2)])]
      exact List.find?_cons_of_pos _ (by simp)
  · have hlen := congrArg List.length hdec
    simp [List.length_append] at hlen

/-! ### Records, tagging and decoding (gDNAcount.py lines 119–152)

The two whitelist decoders are abstracted as `Str → Option Str` parameters
(`BCDecoder.decode` / `SBCDecoder.decode` live in bc_decoders.py, which is not
part of src/); nothing below depends on their internals. -/

structure BcRec where
  id : String
  seq : Str
  deriving DecidableEq

structure PRead where
  qname : String
  tags : List (String × Str)
  deriving DecidableEq

def set_tag (r : PRead) (k : String) (v : Str) : PRead :=
  { r with tags := (k, v) :: r.tags }

/-- Line 126: `raw_pieces[i].upper().replace('N', 'A')`. -/
def substNA (s : Str) : Str :=
  (s.map Char.toUpper).map (fun c => if c == 'N' then 'A' else c)

/-- Piece `raw_pieces[i]` of the best segmentation of `seq` (line 125). -/
def raw_piece (seq : Str) (i : Nat) : Str := (gDNA_raw_selection seq).2.getD i []

def process_bc_rec_and_p_read (bcd sbcd : Str → Option Str) (bc_rec : BcRec)
    (p_read : PRead) : ℚ × Option PRead :=
  match gDNA_best_aligner bc_rec.seq with
  | none => ((gDNA_raw_selection bc_rec.seq).1, none)
  | some best =>
    match bcd (substNA (raw_piece bc_rec.seq 0)), bcd (substNA (raw_piece bc_rec.seq 2)),
        sbcd (substNA (raw_piece bc_rec.seq 4)) with
    | some bc1, some bc2, some sbc =>
        ((gDNA_raw_selection bc_rec.seq).1, some
          (set_tag (set_tag (set_tag (set_tag (set_tag (set_tag (set_tag p_read
            "CB" (bc1 ++ ['.'] ++ bc2))
            "CR" (raw_piece bc_rec.seq 0 ++ ['.'] ++ raw_piece bc_rec.seq 2))
            "SB" sbc)
            "SR" (raw_piece bc_rec.seq 4))
            "FB" (best.segs.getD 1 [] ++ ['.'] ++ best.segs.getD 3 []))
            "FR" (raw_piece bc_rec.seq 1 ++ ['.'] ++ raw_piece bc_rec.seq 3))
            "UR" ((find_norm_score_and_pieces
              ⟨[bc1, best.segs.getD 1 [], bc2, best.segs.getD 3 [], sbc, wildN 8]⟩
              bc_rec.seq).2.getLastD [])))
    | _, _, _ => ((gDNA_raw_selection bc_rec.seq).1, none)

/-! ### Threshold estimator (gDNAcount.py lines 181–182, 276–277)

`thresh = np.average(scores) - 2 * np.std(scores)` with the population
standard deviation; a record passes when `score >= thresh`. -/

def mean (xs : List ℚ) : ℚ := xs.sum / xs.length

def variance (xs : List ℚ) : ℚ := ((xs.map (fun x => (x - mean xs) ^ 2)).sum) / xs.length

noncomputable def threshR (xs : List ℚ) : ℝ :=
  (mean xs : ℝ) - 2 * Real.sqrt ((variance xs : ℝ))

def accept (xs : List ℚ) (s : ℚ) : Prop := threshR xs ≤ (s : ℝ)

lemma variance_nonneg (xs : List ℚ) : 0 ≤ variance xs := by
  apply div_nonneg _ (Nat.cast_nonneg _)
  apply List.sum_nonneg
  intro x hx
  obtain ⟨a, -, rfl⟩ := List.mem_map.mp hx
  positivity

lemma accept_iff (xs : List ℚ) (s : ℚ) :
    accept xs s ↔ (mean xs ≤ s ∨ (mean xs - s) ^ 2 ≤ 4 * variance xs) := by
  have hv : (0 : ℝ) ≤ (variance xs : ℝ) := by exact_mod_cast variance_nonneg xs
  have hsq : Real.sqrt ((variance xs : ℝ)) ^ 2 = (variance xs : ℝ) := Real.sq_sqrt hv
  have hnn : (0 : ℝ) ≤ Real.sqrt ((variance xs : ℝ)) := Real.sqrt_nonneg _
  rw [accept, threshR]
  constructor
  · intro h
    by_cases hms : mean xs ≤ s
    · exact Or.inl hms
    · right
      have hpos : (0 : ℝ) < (mean xs : ℝ) - (s : ℝ) := by
        have : (s : ℝ) < (mean xs : ℝ) := by exact_mod_cast lt_of_not_le hms
        linarith
      have hle : (mean xs : ℝ) - (s : ℝ) ≤ 2 * Real.sqrt ((variance xs : ℝ)) := by
        linarith
      have h2 : ((mean xs : ℝ) - (s : ℝ)) ^ 2 ≤ (2 * Real.sqrt ((variance xs : ℝ))) ^ 2 := by
        apply sq_le_sq' _ hle
        linarith
      have h3 : (2 * Real.sqrt ((variance xs : ℝ))) ^ 2 = 4 * (variance xs : ℝ) := by
        rw [mul_pow, hsq]; norm_num
      rw [h3] at h2
      exact_mod_cast h2
  · intro h
    rcases h with hms | hsqle
    · have : (mean xs : ℝ) ≤ (s : ℝ) := by exact_mod_cast hms
      nlinarith [mul_nonneg (by norm_num : (0:ℝ) ≤ 2) hnn]
    · have hcast : ((mean xs : ℝ) - (s : ℝ)) ^ 2 ≤ 4 * (variance xs : ℝ) := by
        exact_mod_cast hsqle
      have habs : (mean xs : ℝ) - (s : ℝ) ≤ Real.sqrt (((mean xs : ℝ) - (s : ℝ)) ^ 2) := by
        rw [Real.sqrt_sq_eq_abs]
        exact le_abs_self _
      have hmono : Real.sqrt (((mean xs : ℝ) - (s : ℝ)) ^ 2)
          ≤ Real.sqrt (4 * (variance xs : ℝ)) := Real.sqrt_le_sqrt hcast
      have h4 : Real.sqrt (4 * (variance xs : ℝ)) = 2 * Real.sqrt ((variance xs : ℝ)) := by
        rw [show (4 : ℝ) * (variance xs : ℝ) = (2 : ℝ) ^ 2 * (variance xs : ℝ) by norm_num,
          Real.sqrt_mul (by positivity), Real.sqrt_sq (by norm_num)]
      linarith [hmono.trans_eq h4]

instance acceptDecidable (xs : List ℚ) (s : ℚ) : Decidable (accept xs s) :=
  decidable_of_iff _ (accept_iff xs s).symm

/-! ### Paired-record synchronizer (gDNAcount.py lines 155–162)

For every aligned read, `next(rec for rec in bc_fq_iter if names_pair(...))`
consumes barcode records until the first match; skipped records are gone for
good.  If the barcode iterator is exhausted first, `next` raises
StopIteration, which inside a generator is a fatal RuntimeError (PEP 479):
modelled by the Boolean error flag, true when the run aborted after the
returned pairs.  The `names_pair` predicate (misc.py, not in src/) is an
abstract parameter. -/

def grabFirst (np : String → String → Bool) (q : String) :
    List BcRec → Option (BcRec × List BcRec)
  | [] => none
  | b :: bs => if np b.id q then some (b, bs) else grabFirst np q bs

def gDNA_paired_recs_iterator (np : String → String → Bool) :
    List BcRec → List PRead → List (BcRec × PRead) × Bool
  | _, [] => ([], false)
  | bcs, p :: ps =>
      match grabFirst np p.qname bcs with
      | none => ([], true)
      | some (b, rest) =>
          let r := gDNA_paired_recs_iterator np rest ps
          ((b, p) :: r.1, r.2)

/-! ### Serial pipeline (gDNAcount.py lines 166–202)

The first loop appends the pair at index `i` and then breaks once
`i >= n_first_seqs`, so the sampled prefix holds the first
`n_first_seqs + 1` pairs; the second loop re-iterates the stream and skips
every `i <= n_first_seqs`. -/

def n_first_seqs : Nat := 10000

def procPair (bcd sbcd : Str → Option Str) (pr : BcRec × PRead) : ℚ × Option PRead :=
  process_bc_rec_and_p_read bcd sbcd pr.1 pr.2

/-- Emission filter `if score >= thresh and read: write(read)`, applied to a
processed list. -/
def emitFilter (scores : List ℚ) (l : List (ℚ × Option PRead)) : List PRead :=
  (l.filter (fun sr => decide (accept scores sr.1) && sr.2.isSome)).filterMap
    (fun sr => sr.2)

def serial_process_gDNA_fastqs (np : String → String → Bool)
    (bcd sbcd : Str → Option Str) (bcs : List BcRec) (preads : List PRead) :
    List PRead :=
  let pairs := (gDNA_paired_recs_iterator np bcs preads).1
  let first_scores_and_reads := (pairs.take (n_first_seqs + 1)).map (procPair bcd sbcd)
  let scores := first_scores_and_reads.map (fun sr => sr.1)
  let prefixOut := emitFilter scores first_scores_and_reads
  let restOut := emitFilter scores ((pairs.drop (n_first_seqs + 1)).map (procPair bcd sbcd))
  prefixOut ++ restOut

/-! ### Chunked parallel pipeline (gDNAcount.py lines 205–329)

`chunked_gDNA_paired_recs_tmp_files_iterator` appends the pair at index `i`
and yields the accumulated chunk when `i % chunksize == 0 and i > 0`; after
the loop it yields the leftover chunk only when `i % chunksize` is nonzero
for the final index `i`.  Chunks are written to temporary files, re-paired and
processed by workers, and the worker outputs are merged in chunk-submission
order (`itertools.islice` batches of `arguments.threads` fed to `pool.imap`,
which preserves submission order). -/

def chunkedLoop (chunksize : Nat) :
    Nat → List (BcRec × PRead) → List (BcRec × PRead) → List (List (BcRec × PRead))
  | _, _, [] => []
  | i, acc, [x] =>
      if i % chunksize == 0 && decide (0 < i) then [acc ++ [x]]
      else if i % chunksize != 0 then [acc ++ [x]]
      else []
  | i, acc, x :: xs =>
      if i % chunksize == 0 && decide (0 < i) then
        (acc ++ [x]) :: chunkedLoop chunksize (i + 1) [] xs
      else chunkedLoop chunksize (i + 1) (acc ++ [x]) xs

def chunked_gDNA_paired_recs (chunksize : Nat) (pairs : List (BcRec × PRead)) :
    List (List (BcRec × PRead)) :=
  chunkedLoop chunksize 0 [] pairs

def batchesOf {α : Type} (t : Nat) (l : List α) : List (List α) :=
  if _h : l.isEmpty = true ∨ t = 0 then [] else l.take t :: batchesOf t (l.drop t)
termination_by l.length
decreasing_by
  simp only [List.length_drop]
  rcases l with _ | ⟨a, l⟩
  · simp at _h
  · simp only [List.length_cons]
    omega

/-- gDNAcount.py lines 235–250: a worker re-pairs the chunk's temporary files
and applies the score/threshold/decode logic to every pair of the chunk. -/
def process_chunk_of_reads (np : String → String → Bool)
    (bcd sbcd : Str → Option Str) (scores : List ℚ) (ch : List (BcRec × PRead)) :
    List PRead :=
  let rePairs := (gDNA_paired_recs_iterator np (ch.map (fun pr => pr.1))
    (ch.map (fun pr => pr.2))).1
  emitFilter scores (rePairs.map (procPair bcd sbcd))

def parallel_process_gDNA_fastqs (np : String → String → Bool)
    (bcd sbcd : Str → Option Str) (chunksize threads : Nat)
    (bcs : List BcRec) (preads : List PRead) : List PRead :=
  let pairs := (gDNA_paired_recs_iterator np bcs preads).1
  let scores := ((pairs.take (n_first_seqs + 1)).map (procPair bcd sbcd)).map
    (fun sr => sr.1)
  ((batchesOf threads (chunked_gDNA_paired_recs chunksize pairs)).map
    (fun batch => (batch.map (process_chunk_of_reads np bcd sbcd scores)).flatten)).flatten

/-! ### RNA pipeline (count.py lines 13–61) -/

def commonseq2_RNA : Str := "GTACTCGCAGTAGTCGACACGTC".data

def RNA_aligners : List CustomBCAligner :=
  commonseq1_options.map (fun cso =>
    ⟨[wildN 9, cso, wildN 9, commonseq2_RNA, wildN 8, wildN 8]⟩)

/-- count.py lines 33–41: `parse_recs` computes the best normalized score over
the aligners and renames the record, then executes `return score, rec`; the
name `rec` is bound neither in `parse_recs` nor in its enclosing
`process_RNA_fastqs` nor at module level, so every call raises NameError. -/
def parse_recs (bc_rec _p_rec : BcRec) : Except String (ℚ × BcRec) :=
  let _score :=
    (pyMax (RNA_aligners.map (fun al => find_norm_score_and_pieces al bc_rec.seq))).1
  Except.error "NameError: name rec is not defined"

/-- count.py lines 43–61: sample the first `100000 + 1` zipped record pairs
(the loop breaks after appending once `i >= 100000`), set
`thresh = mean - 2 * std` over their scores, emit the sampled records passing
the threshold, then continue with the remaining stream under the same
threshold. -/
def process_RNA_fastqs (bc_recs p_recs : List BcRec) : Except String (List BcRec) := do
  let pairs := bc_recs.zip p_recs
  let first_scores_and_recs ← (pairs.take (100000 + 1)).mapM
    (fun bp => parse_recs bp.1 bp.2)
  let scores := first_scores_and_recs.map (fun sr => sr.1)
  let out_recs := (first_scores_and_recs.filter
    (fun sr => decide (accept scores sr.1))).map (fun sr => sr.2)
  let rest ← (pairs.drop (100000 + 1)).mapM (fun bp => parse_recs bp.1 bp.2)
  pure (out_recs ++ (rest.filter (fun sr => decide (accept scores sr.1))).map
    (fun sr => sr.2))

/-! ### Count-matrix assembly (gDNAcount.py lines 353–419) -/

structure CountRead where
  ref : String
  cb : Str
  fb : Str
  sb : Str
  ub : Str
  deriving DecidableEq

/-- gDNAcount.py lines 353–358: `f'{bc}:{filler_len:d}:{sbc}'` with
`filler_len = len(filler.split('.')[0])`. -/
def build_complete_bc (r : CountRead) : Str :=
  r.cb ++ [':'] ++ (toString (r.fb.takeWhile (fun c => c != '.')).length).data
    ++ [':'] ++ r.sb

def bumpInner : List (Str × Nat) → Str → List (Str × Nat)
  | [], u => [(u, 1)]
  | (k, c) :: t, u => if k = u then (k, c + 1) :: t else (k, c) :: bumpInner t u

def bumpOuter : List (Str × List (Str × Nat)) → Str → Str →
    List (Str × List (Str × Nat))
  | [], bc, u => [(bc, [(u, 1)])]
  | (k, inner) :: t, bc, u =>
      if k = bc then (k, bumpInner inner u) :: t
      else (k, inner) :: bumpOuter t bc u

/-- gDNAcount.py lines 360–365: the per-reference worker aggregate
`read_count_given_umi_given_bc[build_complete_bc(read)][read.get_tag('UB')] += 1`
over the reads fetched for `ref`, as a nested association list in Python-dict
insertion order. -/
def count_parallel_wrapper (reads : List CountRead) (ref : String) :
    List (Str × List (Str × Nat)) :=
  (reads.filter (fun r => r.ref == ref)).foldl
    (fun acc r => bumpOuter acc (build_complete_bc r) r.ub) []

def sortStrsInsert (x : Str) : List Str → List Str
  | [] => [x]
  | y :: t => if pyLtStr x y then x :: y :: t else y :: sortStrsInsert x t

/-- Python `sorted` over strings (lexicographic). -/
def sortStrs (l : List Str) : List Str := l.foldr sortStrsInsert []

def updEntry (m : List (List Nat)) (j i δ : Nat) : List (List Nat) :=
  m.set j ((m.getD j []).set i ((m.getD j []).getD i 0 + δ))

def matrixZero (rows cols : Nat) : List (List Nat) :=
  List.replicate rows (List.replicate cols 0)

def transposeM (m : List (List Nat)) (cols : Nat) : List (List Nat) :=
  (List.range cols).map (fun i => m.map (fun row => row.getD i 0))

/-- gDNAcount.py lines 367–419: sparse count-matrix assembly.  `arrival` is
the order in which `pool.imap_unordered` delivers the per-reference partial
aggregates (some permutation of `reference_names`).  Faithful to the source,
the matrix row receiving a reference's counts is the *enumeration index* `j`
of the delivery (line 398), not the reference's declared index — the computed
`j_given_reference` (line 391) is never used.  Returns the transposed
read-count matrix, the transposed UMI-count matrix (both barcode × reference),
the barcode row labels (sorted) and the reference column labels (declaration
order) as written to barcodes.tsv / features.tsv. -/
def gDNA_count_matrix (reads : List CountRead)
    (reference_names arrival : List String) :
    List (List Nat) × List (List Nat) × List Str × List String :=
  let sorted_complete_bcs := sortStrs (reads.map build_complete_bc).dedup
  let cols := sorted_complete_bcs.length
  let M0 := matrixZero arrival.length cols
  let step := fun (Ms : List (List Nat) × List (List Nat)) (jref : Nat × String) =>
    (count_parallel_wrapper reads jref.2).foldl
      (fun Ms2 bcCnt =>
        let i := sorted_complete_bcs.indexOf bcCnt.1
        bcCnt.2.foldl
          (fun Ms3 umiCnt =>
            (updEntry Ms3.1 jref.1 i umiCnt.2, updEntry Ms3.2 jref.1 i 1)) Ms2)
      Ms
  let MT := (arrival.enum).foldl step (M0, M0)
  (transposeM MT.1 cols, transposeM MT.2 cols, sorted_complete_bcs, reference_names)

/-! ### End-to-end gDNA pipeline stage trace (gDNAcount.py lines 29–88) -/

inductive GdnaStage
  | runStar
  | writeTaggedBam
  | sortBam
  | indexBam
  | correctUMIsStage
  | countMatrixStage
  deriving DecidableEq

/-- The only bam-path local names `process_gDNA_fastqs` ever assigns
(gDNAcount.py lines 33–34). -/
def process_gDNA_fastqs_bound_names : List String :=
  ["star_w_bc_fpath", "star_w_bc_sorted_fpath"]

/-- gDNAcount.py lines 29–88: the stage trace of `process_gDNA_fastqs` as a
function of how many steps a resumed run has already completed (0, 1 or 2),
paired with the outcome of the final
`gDNA_count_matrix(arguments, star_w_bc_umi_sorted_fpath)` call (line 87).
`correct_UMIs` (line 336) is never invoked anywhere in the function, and the
argument name `star_w_bc_umi_sorted_fpath` is never assigned, so evaluating
the call's argument raises NameError before the matrix stage can run. -/
def process_gDNA_fastqs_run (completed : Nat) : List GdnaStage × Except String Unit :=
  let trace :=
    (if completed < 1 then [GdnaStage.runStar, GdnaStage.writeTaggedBam] else []) ++
      (if completed < 2 then [GdnaStage.sortBam, GdnaStage.indexBam] else [])
  if process_gDNA_fastqs_bound_names.contains "star_w_bc_umi_sorted_fpath" then
    (trace ++ [GdnaStage.countMatrixStage], Except.ok ())
  else
    (trace, Except.error "NameError: name star_w_bc_umi_sorted_fpath is not defined")

/-! ### Output-directory guard (gDNAcount.py lines 371–378) -/

/-- The directory-existence guard at the top of `gDNA_count_matrix`:
`existing` is the set of directories present; the result pairs the updated
set with whether the matrix build (and every matrix/label write, lines
380–419) proceeds.  The loop checks `raw_reads_bc_matrix` first, returning
early if it exists, otherwise creates it and checks `raw_umis_bc_matrix`. -/
def gDNA_count_matrix_guard (existing : List String) (output_dir : String) :
    List String × Bool :=
  let raw_reads_output_dir := output_dir ++ "/raw_reads_bc_matrix"
  let raw_umis_output_dir := output_dir ++ "/raw_umis_bc_matrix"
  if existing.contains raw_reads_output_dir then (existing, false)
  else
    let existing1 := raw_reads_output_dir :: existing
    if existing1.contains raw_umis_output_dir then (existing1, false)
    else (raw_umis_output_dir :: existing1, true)

/-! ### Concrete example inputs used by witnesses and counterexamples -/

def seqEx : Str :=
  "AAAAAAAAAGTCAGTACGTACGAGTCCCCCCCCCCGTACTCGCAGTAGTCTTTTTTTTGGGGGGGG".data

def npEq : String → String → Bool := fun a b => a == b

def bcdId : Str → Option Str := fun s => some s

def bcdA : Str → Option Str := fun _ => some ['A']

def bcEx : BcRec := ⟨"read1", seqEx⟩

def prEx : PRead := ⟨"read1", []⟩

def bcSkip : BcRec := ⟨"other", []⟩

def bcHit : BcRec := ⟨"read1", []⟩

def readEx : CountRead := ⟨"R1", "AAA".data, "TT.GG".data, "CC".data, "UU".data⟩

/-! ### Helper lemmas about the pipelines -/

lemma emitFilter_append (scores : List ℚ) (a b : List (ℚ × Option PRead)) :
    emitFilter scores (a ++ b) = emitFilter scores a ++ emitFilter scores b := by
  simp [emitFilter, List.filter_append, List.filterMap_append]

lemma mem_emitFilter {scores : List ℚ} {l : List (ℚ × Option PRead)} {r : PRead}
    (h : r ∈ emitFilter scores l) :
    ∃ sr ∈ l, sr.2 = some r ∧ accept scores sr.1 := by
  simp only [emitFilter, List.mem_filterMap, List.mem_filter] at h
  obtain ⟨sr, ⟨hmem, hcond⟩, hsome⟩ := h
  rw [Bool.and_eq_true, decide_eq_true_eq] at hcond
  exact ⟨sr, hmem, hsome, hcond.1⟩

lemma grabFirst_skip {np : String → String → Bool} {q : String} :
    ∀ (pre : List BcRec) (b : BcRec) (rest : List BcRec),
      (∀ x ∈ pre, np x.id q = false) → np b.id q = true →
      grabFirst np q (pre ++ b :: rest) = some (b, rest) := by
  intro pre
  induction pre with
  | nil => intro b rest _ hb; simp [grabFirst, hb]
  | cons a t ih =>
    intro b rest hpre hb
    have ha : np a.id q = false := hpre a (by simp)
    simp only [List.cons_append, grabFirst, ha]
    simpa using ih b rest (fun x hx => hpre x (by simp [hx])) hb

lemma grabFirst_none {np : String → String → Bool} {q : String} :
    ∀ (bcs : List BcRec), (∀ x ∈ bcs, np x.id q = false) →
      grabFirst np q bcs = none := by
  intro bcs
  induction bcs with
  | nil => intro _; rfl
  | cons a t ih =>
    intro h
    have ha : np a.id q = false := h a (by simp)
    simp only [grabFirst, ha]
    simpa using ih (fun x hx => h x (by simp [hx]))

/-! ### Claim theorems -/

/-- C3: for every gDNA input stream the serial pipeline computes one
threshold, `mean − 2·stddev` (`threshR`/`accept`) over the scores of exactly
the first `n_first_seqs + 1 = 10001` synchronized records, and emits exactly
the records of the whole stream — sampled prefix included, re-evaluated rather
than auto-accepted — whose score is at or above it; the RNA pipeline of
count.py, by contrast, raises `NameError` on its very first record
(`parse_recs` returns the unbound name `rec`), so no threshold is ever
computed there. -/
theorem threshold_one_shot_uniform :
    (∀ (np : String → String → Bool) (bcd sbcd : Str → Option Str)
      (bcs : List BcRec) (preads : List PRead),
      serial_process_gDNA_fastqs np bcd sbcd bcs preads =
        emitFilter
          ((((gDNA_paired_recs_iterator np bcs preads).1.take (n_first_seqs + 1)).map
            (procPair bcd sbcd)).map (fun sr => sr.1))
          (((gDNA_paired_recs_iterator np bcs preads).1).map (procPair bcd sbcd))) ∧
    (∀ (b p : BcRec) (bs ps : List BcRec),
      process_RNA_fastqs (b :: bs) (p :: ps) =
        Except.error "NameError: name rec is not defined") := by
  constructor
  · intro np bcd sbcd bcs preads
    simp only [serial_process_gDNA_fastqs]
    rw [← emitFilter_append, ← List.map_append, List.take_append_drop]
  · intro b p bs ps
    rfl

/-- C5: the chunk iterator of gDNAcount.py lines 220–232 yields a chunk inside
the loop only when `i % chunksize == 0 and i > 0` and yields the leftover
after the loop only when the final index has `i % chunksize` nonzero; for a
one-record stream the only index is 0, both guards are false, and the record
is silently dropped: the parallel pipeline emits nothing while the serial
pipeline emits the accepted record — the claimed serial/parallel equivalence
fails on single-record streams (at two records the pipelines agree). -/
theorem parallel_single_record_dropped :
    chunked_gDNA_paired_recs 100000 ((gDNA_paired_recs_iterator npEq [bcEx] [prEx]).1)
        = [] ∧
    parallel_process_gDNA_fastqs npEq bcdId bcdId 100000 4 [bcEx] [prEx] = [] ∧
    (serial_process_gDNA_fastqs npEq bcdId bcdId [bcEx] [prEx]).length = 1 ∧
    serial_process_gDNA_fastqs npEq bcdId bcdId [bcEx, ⟨"read2", seqEx⟩]
        [prEx, ⟨"read2", []⟩] =
      parallel_process_gDNA_fastqs npEq bcdId bcdId 100000 4
        [bcEx, ⟨"read2", seqEx⟩] [prEx, ⟨"read2", []⟩] := by
  refine ⟨by decide, ?_, ?_, ?_⟩
  · with_unfolding_all decide
  · with_unfolding_all decide
  · with_unfolding_all decide

/-- C7: the synchronizer pairs each aligned record with the first
not-yet-consumed barcode record whose identifier matches, permanently
consuming the skipped earlier records (the recursion proceeds on the
remainder strictly past the match, so it can never match backward), and when
the barcode stream is exhausted with no match it terminates with the fatal
error flag, yielding no further pairs. -/
theorem synchronizer_forward_scan (np : String → String → Bool)
    (bcs : List BcRec) (p : PRead) (ps : List PRead) :
    (∀ pre b rest, bcs = pre ++ b :: rest →
        (∀ x ∈ pre, np x.id p.qname = false) → np b.id p.qname = true →
        gDNA_paired_recs_iterator np bcs (p :: ps) =
          ((b, p) :: (gDNA_paired_recs_iterator np rest ps).1,
            (gDNA_paired_recs_iterator np rest ps).2)) ∧
    ((∀ x ∈ bcs, np x.id p.qname = false) →
        gDNA_paired_recs_iterator np bcs (p :: ps) = ([], true)) := by
  constructor
  · intro pre b rest hdec hpre hb
    subst hdec
    simp [gDNA_paired_recs_iterator, grabFirst_skip pre b rest hpre hb]
  · intro hnone
    simp [gDNA_paired_recs_iterator, grabFirst_none bcs hnone]

/-- Witness for C7 at concrete inputs: `[bcSkip, bcHit]` pairs `bcHit` with
the read (skipping and consuming `bcSkip`), and `[bcSkip]` alone aborts. -/
theorem synchronizer_forward_scan_witness :
    gDNA_paired_recs_iterator npEq [bcSkip, bcHit] [prEx] =
      ((bcHit, prEx) :: (gDNA_paired_recs_iterator npEq [] []).1,
        (gDNA_paired_recs_iterator npEq [] []).2) ∧
    gDNA_paired_recs_iterator npEq [bcSkip] [prEx] = ([], true) := by
  constructor
  · exact (synchronizer_forward_scan npEq [bcSkip, bcHit] prEx []).1
      [bcSkip] bcHit [] rfl (by decide) (by decide)
  · exact (synchronizer_forward_scan npEq [bcSkip] prEx []).2 (by decide)

/-- C8: when either count-matrix output directory already exists,
`gDNA_count_matrix` returns before building anything — no matrix or label
file is written and no error is raised (the guard is an early `return`). -/
theorem matrix_dir_guard_skips (existing : List String) (output_dir : String)
    (h : (output_dir ++ "/raw_reads_bc_matrix") ∈ existing ∨
         (output_dir ++ "/raw_umis_bc_matrix") ∈ existing) :
    (gDNA_count_matrix_guard existing output_dir).2 = false := by
  rw [gDNA_count_matrix_guard]
  rcases h with h | h
  · simp [h]
  · by_cases h1 : (output_dir ++ "/raw_reads_bc_matrix") ∈ existing
    · simp [h1]
    · simp [h1, h]

/-- Witness for C8: an existing `raw_umis_bc_matrix` directory alone already
makes the stage skip. -/
theorem matrix_dir_guard_skips_witness :
    (gDNA_count_matrix_guard ["out/raw_umis_bc_matrix"] "out").2 = false :=
  matrix_dir_guard_skips ["out/raw_umis_bc_matrix"] "out" (Or.inr (by simp))

/-- C2: `process_gDNA_fastqs` never invokes `correct_UMIs`, and its final
`gDNA_count_matrix(arguments, star_w_bc_umi_sorted_fpath)` call names a local
that is never assigned, so every run — at every resume level — aborts with
NameError before matrix assembly; no UB rewriting happens and the
matrix-assembly stage never consumes a UMI-corrected stream. -/
theorem umi_correction_never_runs (completed : Nat) :
    (process_gDNA_fastqs_run completed).2 =
      Except.error "NameError: name star_w_bc_umi_sorted_fpath is not defined" ∧
    GdnaStage.correctUMIsStage ∉ (process_gDNA_fastqs_run completed).1 ∧
    GdnaStage.countMatrixStage ∉ (process_gDNA_fastqs_run completed).1 := by
  by_cases h1 : completed < 1 <;> by_cases h2 : completed < 2 <;>
    simp [process_gDNA_fastqs_run, process_gDNA_fastqs_bound_names, h1, h2]

/-- C1: the count matrices do carry the claimed per-(reference, barcode)
read/UMI counts when the per-reference aggregates happen to arrive in
declaration order, but the matrix row receiving a reference's counts is the
`imap_unordered` enumeration index (gDNAcount.py line 398; the declared-order
index `j_given_reference` of line 391 is never used), so a reversed arrival
moves the single R1 read from the column labelled R1 to the column labelled
R2: the exported matrices depend on worker collection order. -/
theorem count_matrix_depends_on_arrival :
    (gDNA_count_matrix [readEx] ["R1", "R2"] ["R1", "R2"]).1 = [[1, 0]] ∧
    (gDNA_count_matrix [readEx] ["R1", "R2"] ["R2", "R1"]).1 = [[0, 1]] ∧
    (gDNA_count_matrix [readEx] ["R1", "R2"] ["R1", "R2"]).2.1 = [[1, 0]] ∧
    (gDNA_count_matrix [readEx] ["R1", "R2"] ["R2", "R1"]).2.1 = [[0, 1]] ∧
    (gDNA_count_matrix [readEx] ["R1", "R2"] ["R2", "R1"]).2.2.2 = ["R1", "R2"] := by
  refine ⟨by decide, by decide, by decide, by decide, by decide⟩

/-- Structural characterization of a successful `process_bc_rec_and_p_read`:
the emitted read's tag list is exactly the seven-tag chain of lines 140–151
pushed onto the input read's tags, with decodes of the substituted pieces. -/
lemma process_snd_some_tags {bcd sbcd : Str → Option Str} {b : BcRec} {p : PRead}
    {r : PRead} (h : (process_bc_rec_and_p_read bcd sbcd b p).2 = some r) :
    ∃ best bc1 bc2 sbc,
      gDNA_best_aligner b.seq = some best ∧
      bcd (substNA (raw_piece b.seq 0)) = some bc1 ∧
      bcd (substNA (raw_piece b.seq 2)) = some bc2 ∧
      sbcd (substNA (raw_piece b.seq 4)) = some sbc ∧
      r.tags =
        ("UR", ((find_norm_score_and_pieces
            ⟨[bc1, best.segs.getD 1 [], bc2, best.segs.getD 3 [], sbc, wildN 8]⟩
            b.seq).2.getLastD [])) ::
        ("FR", (raw_piece b.seq 1 ++ ['.'] ++ raw_piece b.seq 3)) ::
        ("FB", (best.segs.getD 1 [] ++ ['.'] ++ best.segs.getD 3 [])) ::
        ("SR", (raw_piece b.seq 4)) ::
        ("SB", sbc) ::
        ("CR", (raw_piece b.seq 0 ++ ['.'] ++ raw_piece b.seq 2)) ::
        ("CB", (bc1 ++ ['.'] ++ bc2)) :: p.tags := by
  unfold process_bc_rec_and_p_read at h
  split at h
  · simp at h
  · split at h
    · next best bc1 bc2 sbc hbc1 hbc2 hsbc =>
      simp only [Option.some.injEq] at h
      subst h
      exact ⟨_, _, _, _, by assumption, hbc1, hbc2, hsbc, rfl⟩
    · simp at h

/-- C6: every record emitted by the serial gDNA processing stage carries the
complete tag set CB, CR, SB, SR, FB, FR, UR.  A record with a failed
cell-barcode or sample-barcode decode is returned as `(score, None)` before
any tag is set, and the emission filter additionally drops below-threshold
records, so no record is ever written with a partial subset of these tags. -/
theorem emitted_records_fully_tagged (np : String → String → Bool)
    (bcd sbcd : Str → Option Str) (bcs : List BcRec) (preads : List PRead)
    (r : PRead) (hr : r ∈ serial_process_gDNA_fastqs np bcd sbcd bcs preads) :
    ((r.tags.lookup "CB").isSome ∧ (r.tags.lookup "CR").isSome) ∧
    ((r.tags.lookup "SB").isSome ∧ (r.tags.lookup "SR").isSome) ∧
    ((r.tags.lookup "FB").isSome ∧ (r.tags.lookup "FR").isSome) ∧
    (r.tags.lookup "UR").isSome := by
  have key : ∀ (scores : List ℚ) (l : List (BcRec × PRead)),
      r ∈ emitFilter scores (l.map (procPair bcd sbcd)) →
      ((r.tags.lookup "CB").isSome ∧ (r.tags.lookup "CR").isSome) ∧
      ((r.tags.lookup "SB").isSome ∧ (r.tags.lookup "SR").isSome) ∧
      ((r.tags.lookup "FB").isSome ∧ (r.tags.lookup "FR").isSome) ∧
      (r.tags.lookup "UR").isSome := by
    intro scores l hmem
    obtain ⟨sr, hsr, hsome, -⟩ := mem_emitFilter hmem
    obtain ⟨pr, -, rfl⟩ := List.mem_map.mp hsr
    obtain ⟨best, bc1, bc2, sbc, -, -, -, -, htags⟩ := process_snd_some_tags hsome
    rw [htags]
    simp [List.lookup]
  simp only [serial_process_gDNA_fastqs] at hr
  rw [List.mem_append] at hr
  rcases hr with hr | hr
  · exact key _ _ hr
  · exact key _ _ hr

/-- Witness for C6: the record emitted for the concrete example stream
carries all seven tags. -/
theorem emitted_records_fully_tagged_witness :
    ((((serial_process_gDNA_fastqs npEq bcdId bcdId [bcEx] [prEx]).headD
        ⟨"", []⟩).tags.lookup "CB").isSome ∧
      (((serial_process_gDNA_fastqs npEq bcdId bcdId [bcEx] [prEx]).headD
        ⟨"", []⟩).tags.lookup "CR").isSome) ∧
    ((((serial_process_gDNA_fastqs npEq bcdId bcdId [bcEx] [prEx]).headD
        ⟨"", []⟩).tags.lookup "SB").isSome ∧
      (((serial_process_gDNA_fastqs npEq bcdId bcdId [bcEx] [prEx]).headD
        ⟨"", []⟩).tags.lookup "SR").isSome) ∧
    ((((serial_process_gDNA_fastqs npEq bcdId bcdId [bcEx] [prEx]).headD
        ⟨"", []⟩).tags.lookup "FB").isSome ∧
      (((serial_process_gDNA_fastqs npEq bcdId bcdId [bcEx] [prEx]).headD
        ⟨"", []⟩).tags.lookup "FR").isSome) ∧
    (((serial_process_gDNA_fastqs npEq bcdId bcdId [bcEx] [prEx]).headD
        ⟨"", []⟩).tags.lookup "UR").isSome := by
  have hmem : (serial_process_gDNA_fastqs npEq bcdId bcdId [bcEx] [prEx]).headD ⟨"", []⟩
      ∈ serial_process_gDNA_fastqs npEq bcdId bcdId [bcEx] [prEx] := by
    with_unfolding_all decide
  exact emitted_records_fully_tagged npEq bcdId bcdId [bcEx] [prEx] _ hmem

/-- C9: whitelist decoding operates on the uppercased, N→A-substituted copy
of each extracted piece — the CB/SB tag values are the decoders' outputs on
`substNA` of the raw pieces — while the CR/SR tags preserve the raw extracted
pieces unmodified. -/
theorem decode_on_substituted_pieces (bcd sbcd : Str → Option Str)
    (b : BcRec) (p : PRead) (r : PRead)
    (h : (process_bc_rec_and_p_read bcd sbcd b p).2 = some r) :
    r.tags.lookup "CR" = some (raw_piece b.seq 0 ++ ['.'] ++ raw_piece b.seq 2) ∧
    r.tags.lookup "SR" = some (raw_piece b.seq 4) ∧
    ∃ bc1 bc2 sbc,
      bcd (substNA (raw_piece b.seq 0)) = some bc1 ∧
      bcd (substNA (raw_piece b.seq 2)) = some bc2 ∧
      sbcd (substNA (raw_piece b.seq 4)) = some sbc ∧
      r.tags.lookup "CB" = some (bc1 ++ ['.'] ++ bc2) ∧
      r.tags.lookup "SB" = some sbc := by
  obtain ⟨best, bc1, bc2, sbc, -, h1, h2, h3, htags⟩ := process_snd_some_tags h
  rw [htags]
  exact ⟨by simp [List.lookup], by simp [List.lookup], bc1, bc2, sbc, h1, h2, h3,
    by simp [List.lookup], by simp [List.lookup]⟩

/-- Witness for C9 at the concrete example record. -/
theorem decode_on_substituted_pieces_witness :
    ∃ r, (process_bc_rec_and_p_read bcdId bcdId bcEx prEx).2 = some r ∧
      (r.tags.lookup "CR" = some (raw_piece bcEx.seq 0 ++ ['.'] ++ raw_piece bcEx.seq 2) ∧
       r.tags.lookup "SR" = some (raw_piece bcEx.seq 4) ∧
       ∃ bc1 bc2 sbc,
         bcdId (substNA (raw_piece bcEx.seq 0)) = some bc1 ∧
         bcdId (substNA (raw_piece bcEx.seq 2)) = some bc2 ∧
         bcdId (substNA (raw_piece bcEx.seq 4)) = some sbc ∧
         r.tags.lookup "CB" = some (bc1 ++ ['.'] ++ bc2) ∧
         r.tags.lookup "SB" = some sbc) := by
  have hs : (process_bc_rec_and_p_read bcdId bcdId bcEx prEx).2.isSome := by
    with_unfolding_all decide
  obtain ⟨r, hr⟩ := Option.isSome_iff_exists.mp hs
  exact ⟨r, hr, decode_on_substituted_pieces bcdId bcdId bcEx prEx r hr⟩

/-- C10: the UR tag of every accepted record is the final piece of a second
alignment of the barcode sequence against the corrected layout — decoded cell
barcode 1, the matched common sequence 1 variant, decoded cell barcode 2,
common sequence 2, decoded sample barcode, then an 8-base wildcard — and for
some inputs (here: decoders whose whitelist entries are shorter than the
extraction windows) this differs from the final piece of the original
best-scoring segmentation. -/
theorem raw_umi_from_realignment :
    (∀ (bcd sbcd : Str → Option Str) (b : BcRec) (p : PRead) (r : PRead),
      (process_bc_rec_and_p_read bcd sbcd b p).2 = some r →
      ∃ best bc1 bc2 sbc,
        gDNA_best_aligner b.seq = some best ∧
        bcd (substNA (raw_piece b.seq 0)) = some bc1 ∧
        bcd (substNA (raw_piece b.seq 2)) = some bc2 ∧
        sbcd (substNA (raw_piece b.seq 4)) = some sbc ∧
        r.tags.lookup "UR" = some ((find_norm_score_and_pieces
          ⟨[bc1, best.segs.getD 1 [], bc2, best.segs.getD 3 [], sbc, wildN 8]⟩
          b.seq).2.getLastD [])) ∧
    ((process_bc_rec_and_p_read bcdA bcdA bcEx prEx).2.isSome ∧
      (process_bc_rec_and_p_read bcdA bcdA bcEx prEx).2.map
          (fun r => r.tags.lookup "UR")
        ≠ some (some ((gDNA_raw_selection bcEx.seq).2.getLastD []))) := by
  constructor
  · intro bcd sbcd b p r h
    obtain ⟨best, bc1, bc2, sbc, hbest, h1, h2, h3, htags⟩ := process_snd_some_tags h
    exact ⟨best, bc1, bc2, sbc, hbest, h1, h2, h3, by rw [htags]; simp [List.lookup]⟩
  · constructor
    · with_unfolding_all decide
    · with_unfolding_all decide

/-- Witness for C10's universally quantified part at the concrete example
record, with decoders returning single-base whitelist entries. -/
theorem raw_umi_from_realignment_witness :
    ∃ r, (process_bc_rec_and_p_read bcdA bcdA bcEx prEx).2 = some r ∧
      ∃ best bc1 bc2 sbc,
        gDNA_best_aligner bcEx.seq = some best ∧
        bcdA (substNA (raw_piece bcEx.seq 0)) = some bc1 ∧
        bcdA (substNA (raw_piece bcEx.seq 2)) = some bc2 ∧
        bcdA (substNA (raw_piece bcEx.seq 4)) = some sbc ∧
        r.tags.lookup "UR" = some ((find_norm_score_and_pieces
          ⟨[bc1, best.segs.getD 1 [], bc2, best.segs.getD 3 [], sbc, wildN 8]⟩
          bcEx.seq).2.getLastD []) := by
  have hs : (process_bc_rec_and_p_read bcdA bcdA bcEx prEx).2.isSome := by
    with_unfolding_all decide
  obtain ⟨r, hr⟩ := Option.isSome_iff_exists.mp hs
  exact ⟨r, hr, raw_umi_from_realignment.1 bcdA bcdA bcEx prEx r hr⟩

end SDR
